import Mathlib

/-!
Shallow embedding of the strategy functions in
`live_strategy_functions.py` of the `trading-for-btc` repository,
together with theorems settling the specification claims about them.

Conventions of the embedding:
* a pandas DataFrame window is a `List Candle`, ordered as the rows are;
* a row's index (a timestamp) is the `ts` field, an `Int`;
* prices are rationals (`ℚ`); the float arithmetic of the source is
  embedded as exact rational arithmetic;
* Python `None` becomes `Option.none`; a `(timestamp, value)` tuple for a
  confirmed swing point becomes `Int × ℚ`; a `(level_price, breach_timestamp)`
  pending-level tuple becomes `ℚ × Int`;
* the in-place mutation of `potential_rts_levels` / `potential_str_levels`
  is embedded by returning the updated lists alongside the signals.
-/

/-- OHLCV record of one candle. `op`/`vol` embed the `Open`/`Volume`
columns, `ts` the DataFrame index (`.name` of a row). -/
structure Candle where
  ts : Int
  op : ℚ
  high : ℚ
  low : ℚ
  close : ℚ
  vol : ℚ
deriving DecidableEq, Repr

/-- Embedding of `find_swing_highs_live(df_window, window_size)`.
The candidate is the row at index `window_size`; the compared slice
`iloc[candidate_idx - window_size : candidate_idx + window_size + 1]`
is the first `2 * window_size + 1` rows of the window.  The source's
`candidate_high == series.max()` comparison is equality with the
maximum of the slice. -/
def find_swing_highs_live (df_window : List Candle) (window_size : Nat) :
    Option (Int × ℚ) :=
  if df_window.length < 2 * window_size + 1 then none
  else
    match df_window[window_size]? with
    | none => none
    | some candidate =>
      if (candidate.high : WithBot ℚ) =
          ((df_window.take (2 * window_size + 1)).map Candle.high).maximum then
        some (candidate.ts, candidate.high)
      else none

/-- Embedding of `find_swing_lows_live(df_window, window_size)`. -/
def find_swing_lows_live (df_window : List Candle) (window_size : Nat) :
    Option (Int × ℚ) :=
  if df_window.length < 2 * window_size + 1 then none
  else
    match df_window[window_size]? with
    | none => none
    | some candidate =>
      if (candidate.low : WithTop ℚ) =
          ((df_window.take (2 * window_size + 1)).map Candle.low).minimum then
        some (candidate.ts, candidate.low)
      else none

/-- Embedding of `find_resistance_live`: delegates to the swing-high detector. -/
def find_resistance_live (df_window : List Candle) (window_size : Nat) :
    Option (Int × ℚ) :=
  find_swing_highs_live df_window window_size

/-- Embedding of `find_support_live`: delegates to the swing-low detector. -/
def find_support_live (df_window : List Candle) (window_size : Nat) :
    Option (Int × ℚ) :=
  find_swing_lows_live df_window window_size

/-- Embedding of `find_fair_value_gaps_live(df_last_3_candles)`: needs at
least 3 rows, pattern-matches on the first three. -/
def find_fair_value_gaps_live (df_last_3_candles : List Candle) :
    Option (String × ℚ) :=
  match df_last_3_candles with
  | candle1 :: candle2 :: candle3 :: _ =>
    if candle1.low > candle3.high ∧ candle3.high < candle2.low then
      some ("BullishFVG", candle1.low)
    else if candle1.high < candle3.low ∧ candle3.low > candle2.high then
      some ("BearishFVG", candle1.high)
    else none
  | _ => none

/-- Embedding of `determine_market_structure_live`.  The histories are
`(timestamp, value)` lists, oldest first; the source reads entries `[-1]`
and `[-2]` of each, which are the heads of the reversed lists.  The
`current_candle_htf` argument is kept although the source never reads it. -/
def determine_market_structure_live (current_candle_htf : Candle)
    (confirmed_sh_history confirmed_sl_history : List (Int × ℚ)) : String :=
  match confirmed_sh_history.reverse, confirmed_sl_history.reverse with
  | sh2 :: sh1 :: _, sl2 :: sl1 :: _ =>
    if sh2.2 > sh1.2 ∧ sl2.2 > sl1.2 ∧ sl2.1 > sh2.1 then "Bullish"
    else if sl2.2 < sl1.2 ∧ sh2.2 < sh1.2 ∧ sh2.1 > sl2.1 then "Bearish"
    else "Ranging"
  | _, _ => "Ranging"

/-- Embedding of `identify_bos_live`. -/
def identify_bos_live (current_candle_htf : Candle) (market_structure : String)
    (last_confirmed_sh last_confirmed_sl : Option (Int × ℚ)) : Option String :=
  if market_structure = "Bullish" then
    match last_confirmed_sh with
    | some sh =>
      if current_candle_htf.ts > sh.1 ∧ current_candle_htf.close > sh.2 then
        some "Bullish BOS"
      else none
    | none => none
  else if market_structure = "Bearish" then
    match last_confirmed_sl with
    | some sl =>
      if current_candle_htf.ts > sl.1 ∧ current_candle_htf.close < sl.2 then
        some "Bearish BOS"
      else none
    | none => none
  else none

/-- Embedding of `mark_supply_demand_zones_live`; `np.nan` becomes `none`. -/
def mark_supply_demand_zones_live
    (latest_confirmed_sh latest_confirmed_sl : Option (Int × ℚ)) :
    Option ℚ × Option ℚ :=
  (latest_confirmed_sh.map Prod.snd, latest_confirmed_sl.map Prod.snd)

/-- Pending-level confirmation condition for a potential RTS entry
`e = (level, breach_ts)`, read off the nested conditions of the RTS
detection loop: the retest happens after the breach, the current low
touches the level within tolerance, and the close is back above the
level. -/
def rtsConfirms (c : Candle) (tol : ℚ) (e : ℚ × Int) : Bool :=
  decide (c.ts > e.2) && decide (|c.low - e.1| / e.1 ≤ tol) &&
    decide (c.close > e.1)

/-- Pending-level confirmation condition for a potential STR entry,
read off the nested conditions of the STR detection loop (current high
touches the level, close back below it). -/
def strConfirms (c : Candle) (tol : ℚ) (e : ℚ × Int) : Bool :=
  decide (c.ts > e.2) && decide (|c.high - e.1| / e.1 ≤ tol) &&
    decide (c.close < e.1)

/-- Breach-to-pending update for `potential_rts_levels`: when the close
crosses the last confirmed resistance upward after it was established,
append `(value, current_timestamp)` unless the pair
`(value, resistance_timestamp)` is already in the list — this is the
membership test of the source, written with the resistance's own
timestamp, not the current one. -/
def rtsBreachUpdate (c : Candle) (last_confirmed_res : Option (Int × ℚ))
    (potential_rts_levels : List (ℚ × Int)) : List (ℚ × Int) :=
  match last_confirmed_res with
  | none => potential_rts_levels
  | some res =>
    if c.close > res.2 ∧ c.ts > res.1 then
      if (res.2, res.1) ∉ potential_rts_levels then
        potential_rts_levels ++ [(res.2, c.ts)]
      else potential_rts_levels
    else potential_rts_levels

/-- Breach-to-pending update for `potential_str_levels` (support broken
downward). -/
def strBreachUpdate (c : Candle) (last_confirmed_sup : Option (Int × ℚ))
    (potential_str_levels : List (ℚ × Int)) : List (ℚ × Int) :=
  match last_confirmed_sup with
  | none => potential_str_levels
  | some sup =>
    if c.close < sup.2 ∧ c.ts > sup.1 then
      if (sup.2, sup.1) ∉ potential_str_levels then
        potential_str_levels ++ [(sup.2, c.ts)]
      else potential_str_levels
    else potential_str_levels

/-- Scan loop over a snapshot of a pending-level list: the signal is
overwritten by each confirming entry (the last one wins) and every
confirming entry is collected into the second component
(`newly_confirmed_rts` / `newly_confirmed_str` of the source). -/
def pendingScan (tag : String) (confirms : ℚ × Int → Bool)
    (l : List (ℚ × Int)) : Option (ℚ × String) × List (ℚ × Int) :=
  l.foldl
    (fun acc e =>
      if confirms e then (some (e.1, tag), acc.2 ++ [e]) else acc)
    (none, [])

/-- Removal loop of the source: for each collected item, remove its first
occurrence from the pending list if it is still present. -/
def removeConfirmed (newly_confirmed : List (ℚ × Int))
    (l : List (ℚ × Int)) : List (ℚ × Int) :=
  newly_confirmed.foldl
    (fun acc item => if item ∈ acc then acc.erase item else acc) l

/-- Return value of `identify_str_rts_live`: the two signals it returns,
plus the two pending-level lists it mutates in place. -/
structure StrRtsOutput where
  rts_signal_info : Option (ℚ × String)
  str_signal_info : Option (ℚ × String)
  potential_rts_levels : List (ℚ × Int)
  potential_str_levels : List (ℚ × Int)
deriving DecidableEq, Repr

/-- Embedding of `identify_str_rts_live`: breach updates for both lists,
then the RTS detection loop with its removals, then the STR detection
loop with its removals. -/
def identify_str_rts_live (current_candle_mtf : Candle)
    (last_confirmed_res last_confirmed_sup : Option (Int × ℚ))
    (potential_rts_levels potential_str_levels : List (ℚ × Int))
    (retest_tolerance_percent : ℚ) : StrRtsOutput :=
  let rts1 := rtsBreachUpdate current_candle_mtf last_confirmed_res
    potential_rts_levels
  let str1 := strBreachUpdate current_candle_mtf last_confirmed_sup
    potential_str_levels
  let rtsScan := pendingScan "RTS"
    (rtsConfirms current_candle_mtf retest_tolerance_percent) rts1
  let strScan := pendingScan "STR"
    (strConfirms current_candle_mtf retest_tolerance_percent) str1
  { rts_signal_info := rtsScan.1
    str_signal_info := strScan.1
    potential_rts_levels := removeConfirmed rtsScan.2 rts1
    potential_str_levels := removeConfirmed strScan.2 str1 }

/-- Embedding of `define_entry_conditions_live`.  The zone levels are
`Option ℚ` (`np.nan` becomes `none`, matching the `pd.notna` guards); the
four MTF signal arguments carry the level in their first component, as
the source's `[0]` projections read them. -/
def define_entry_conditions_live (current_candle_ltf : Candle)
    (htf_market_structure : String)
    (htf_supply_zone_level htf_demand_zone_level : Option ℚ)
    (mtf_bullish_fvg mtf_bearish_fvg : Option (ℚ × String))
    (mtf_rts_signal_info mtf_str_signal_info : Option (ℚ × String))
    (retest_tolerance_percent : ℚ) :
    Option (String × String) × Option (String × String) :=
  let lo := current_candle_ltf.low
  let hi := current_candle_ltf.high
  if htf_market_structure = "Bullish" then
    let long1 : Option (String × String) :=
      match htf_demand_zone_level with
      | some z =>
        if lo ≤ z ∧ lo ≥ z * (1 - retest_tolerance_percent) then
          some ("Long Entry", "4h Demand Retest")
        else none
      | none => none
    let long2 : Option (String × String) :=
      match long1, mtf_bullish_fvg with
      | none, some f =>
        if lo ≤ f.1 ∧ lo ≥ f.1 * (1 - retest_tolerance_percent) then
          some ("Long Entry", "MTF FVG Retest")
        else none
      | s, _ => s
    let long3 : Option (String × String) :=
      match long2, mtf_rts_signal_info with
      | none, some r =>
        if lo ≤ r.1 ∧ lo ≥ r.1 * (1 - retest_tolerance_percent) then
          some ("Long Entry", "MTF RTS Level Retest")
        else none
      | s, _ => s
    (long3, none)
  else if htf_market_structure = "Bearish" then
    let short1 : Option (String × String) :=
      match htf_supply_zone_level with
      | some z =>
        if hi ≥ z ∧ hi ≤ z * (1 + retest_tolerance_percent) then
          some ("Short Entry", "4h Supply Retest")
        else none
      | none => none
    let short2 : Option (String × String) :=
      match short1, mtf_bearish_fvg with
      | none, some f =>
        if hi ≥ f.1 ∧ hi ≤ f.1 * (1 + retest_tolerance_percent) then
          some ("Short Entry", "MTF FVG Retest")
        else none
      | s, _ => s
    let short3 : Option (String × String) :=
      match short2, mtf_str_signal_info with
      | none, some r =>
        if hi ≥ r.1 ∧ hi ≤ r.1 * (1 + retest_tolerance_percent) then
          some ("Short Entry", "MTF STR Level Retest")
        else none
      | s, _ => s
    (none, short3)
  else (none, none)

/-- Open-trade record: the fields of the `open_trade_details` dictionary
that `define_exit_conditions_live` reads (keys `EntryPrice`, `Type`,
`StopLoss`, `TakeProfit`; `Type` is embedded as `tradeType`). -/
structure OpenTrade where
  entryPrice : ℚ
  tradeType : String
  stopLoss : ℚ
  takeProfit : ℚ
deriving DecidableEq, Repr

/-- Embedding of `define_exit_conditions_live`. -/
def define_exit_conditions_live (current_candle_ltf : Candle)
    (open_trade_details : Option OpenTrade) : Option ℚ × Option String :=
  match open_trade_details with
  | none => (none, none)
  | some t =>
    if t.tradeType = "Long" then
      if current_candle_ltf.low ≤ t.stopLoss then (some t.stopLoss, some "Loss")
      else if current_candle_ltf.high ≥ t.takeProfit then
        (some t.takeProfit, some "Win")
      else (none, none)
    else if t.tradeType = "Short" then
      if current_candle_ltf.high ≥ t.stopLoss then (some t.stopLoss, some "Loss")
      else if current_candle_ltf.low ≤ t.takeProfit then
        (some t.takeProfit, some "Win")
      else (none, none)
    else (none, none)

/-- One call's inputs to the retest state machine, for iterating it. -/
structure RetestCall where
  candle : Candle
  res : Option (Int × ℚ)
  sup : Option (Int × ℚ)
  tol : ℚ
deriving Repr

/-- Iterates `identify_str_rts_live` over a sequence of calls, threading
the two pending-level lists through. -/
def runRetestCalls (s : List (ℚ × Int) × List (ℚ × Int)) :
    List RetestCall → List (ℚ × Int) × List (ℚ × Int)
  | [] => s
  | k :: rest =>
    let out := identify_str_rts_live k.candle k.res k.sup s.1 s.2 k.tol
    runRetestCalls (out.potential_rts_levels, out.potential_str_levels) rest

/-- The collected-confirmations component of the scan loop is exactly the
confirming entries of the scanned snapshot, in order. -/
theorem pendingScan_snd (tag : String) (p : ℚ × Int → Bool)
    (l : List (ℚ × Int)) : (pendingScan tag p l).2 = l.filter p := by
  suffices h : ∀ (o : Option (ℚ × String)) (a : List (ℚ × Int)),
      (l.foldl
        (fun acc e => if p e then (some (e.1, tag), acc.2 ++ [e]) else acc)
        (o, a)).2 = a ++ l.filter p by
    simpa [pendingScan] using h none []
  induction l with
  | nil => intro o a; simp
  | cons e l ih =>
    intro o a
    by_cases hpe : p e
    · simp [hpe, List.filter_cons, ih]
    · simp [hpe, List.filter_cons, ih]

/-- The signal component of the scan loop is the last confirming entry of
the scanned snapshot, tagged, or `none` when nothing confirms. -/
theorem pendingScan_fst (tag : String) (p : ℚ × Int → Bool)
    (l : List (ℚ × Int)) :
    (pendingScan tag p l).1 =
      ((l.filter p).getLast?).elim none (fun e => some (e.1, tag)) := by
  suffices h : ∀ (o : Option (ℚ × String)) (a : List (ℚ × Int)),
      (l.foldl
        (fun acc e => if p e then (some (e.1, tag), acc.2 ++ [e]) else acc)
        (o, a)).1 = ((l.filter p).getLast?).elim o (fun e => some (e.1, tag)) by
    simpa [pendingScan] using h none []
  induction l with
  | nil => intro o a; simp
  | cons e l ih =>
    intro o a
    by_cases hpe : p e
    · rw [List.foldl_cons, if_pos hpe, List.filter_cons_of_pos hpe, ih]
      cases hfp : l.filter p with
      | nil => simp
      | cons x xs =>
        rw [List.getLast?_cons_cons,
          List.getLast?_eq_getLast_of_ne_nil (List.cons_ne_nil x xs)]
        rfl
    · rw [List.foldl_cons, if_neg hpe, List.filter_cons_of_neg hpe]
      exact ih o a

/-- Removing items that all differ from the head leaves the head in place. -/
theorem removeConfirmed_cons_of_ne (x : ℚ × Int) (items l : List (ℚ × Int))
    (h : ∀ e ∈ items, e ≠ x) :
    removeConfirmed items (x :: l) = x :: removeConfirmed items l := by
  induction items generalizing l with
  | nil => rfl
  | cons i items ih =>
    have hix : i ≠ x := h i (List.mem_cons_self i items)
    have hrest : ∀ e ∈ items, e ≠ x := fun e he => h e (List.mem_cons_of_mem i he)
    rw [removeConfirmed, List.foldl_cons, removeConfirmed, List.foldl_cons]
    by_cases hmem : i ∈ l
    · have hmem' : i ∈ x :: l := List.mem_cons_of_mem x hmem
      have herase : (x :: l).erase i = x :: l.erase i := by
        rw [List.erase_cons_tail]
        simp [Ne.symm hix]
      rw [if_pos hmem', if_pos hmem, herase]
      exact ih (l.erase i) hrest
    · have hmem' : i ∉ x :: l := by
        intro hc
        rcases List.mem_cons.mp hc with h1 | h2
        · exact hix h1
        · exact hmem h2
      rw [if_neg hmem', if_neg hmem]
      exact ih l hrest

/-- The removal loop applied to exactly the confirming entries of the list
it scans yields the non-confirming entries, in order: each confirming
entry is removed independently and every other entry remains. -/
theorem removeConfirmed_filter (p : ℚ × Int → Bool) (l : List (ℚ × Int)) :
    removeConfirmed (l.filter p) l = l.filter (fun e => !(p e)) := by
  induction l with
  | nil => rfl
  | cons x l ih =>
    by_cases hpx : p x
    · rw [List.filter_cons_of_pos hpx, removeConfirmed, List.foldl_cons,
        if_pos (List.mem_cons_self x l), List.erase_cons_head,
        List.filter_cons_of_neg (by simp [hpx])]
      exact ih
    · rw [List.filter_cons_of_neg hpx,
        removeConfirmed_cons_of_ne x (l.filter p) l
          (fun e he hex => hpx (by rw [← hex]; exact (List.mem_filter.mp he).2)),
        List.filter_cons_of_pos (by simp [hpx]), ih]

/-- Unfolds the RTS confirmation condition into its three comparisons. -/
theorem rtsConfirms_iff (c : Candle) (tol : ℚ) (e : ℚ × Int) :
    rtsConfirms c tol e = true ↔
      (c.ts > e.2 ∧ |c.low - e.1| / e.1 ≤ tol ∧ c.close > e.1) := by
  simp [rtsConfirms, and_assoc]

/-- Unfolds the STR confirmation condition into its three comparisons. -/
theorem strConfirms_iff (c : Candle) (tol : ℚ) (e : ℚ × Int) :
    strConfirms c tol e = true ↔
      (c.ts > e.2 ∧ |c.high - e.1| / e.1 ≤ tol ∧ c.close < e.1) := by
  simp [strConfirms, and_assoc]

/-- The pending-RTS list returned by one call: the snapshot after the
breach update, with exactly the confirming entries removed. -/
theorem identify_str_rts_live_rts_list (c : Candle)
    (res sup : Option (Int × ℚ)) (rts str : List (ℚ × Int)) (tol : ℚ) :
    (identify_str_rts_live c res sup rts str tol).potential_rts_levels =
      (rtsBreachUpdate c res rts).filter
        (fun e => !(rtsConfirms c tol e)) := by
  simp only [identify_str_rts_live, pendingScan_snd]
  exact removeConfirmed_filter _ _

/-- The pending-STR list returned by one call: the snapshot after the
breach update, with exactly the confirming entries removed. -/
theorem identify_str_rts_live_str_list (c : Candle)
    (res sup : Option (Int × ℚ)) (rts str : List (ℚ × Int)) (tol : ℚ) :
    (identify_str_rts_live c res sup rts str tol).potential_str_levels =
      (strBreachUpdate c sup str).filter
        (fun e => !(strConfirms c tol e)) := by
  simp only [identify_str_rts_live, pendingScan_snd]
  exact removeConfirmed_filter _ _

/-- The RTS signal of one call is the last confirming entry of the
scanned snapshot, tagged `"RTS"`, or `none` when nothing confirms. -/
theorem identify_str_rts_live_rts_signal (c : Candle)
    (res sup : Option (Int × ℚ)) (rts str : List (ℚ × Int)) (tol : ℚ) :
    (identify_str_rts_live c res sup rts str tol).rts_signal_info =
      (((rtsBreachUpdate c res rts).filter
        (rtsConfirms c tol)).getLast?).elim none (fun e => some (e.1, "RTS")) := by
  simp only [identify_str_rts_live]
  exact pendingScan_fst _ _ _

/-- The STR signal of one call is the last confirming entry of the
scanned snapshot, tagged `"STR"`, or `none` when nothing confirms. -/
theorem identify_str_rts_live_str_signal (c : Candle)
    (res sup : Option (Int × ℚ)) (rts str : List (ℚ × Int)) (tol : ℚ) :
    (identify_str_rts_live c res sup rts str tol).str_signal_info =
      (((strBreachUpdate c sup str).filter
        (strConfirms c tol)).getLast?).elim none (fun e => some (e.1, "STR")) := by
  simp only [identify_str_rts_live]
  exact pendingScan_fst _ _ _

/-- C7: in one call to the retest state machine, every pending entry of
the (breach-updated) RTS list whose confirmation conditions hold —
`currentTimestamp > breachTimestamp`, `|currentLow − level|/level ≤
tolerance`, `close > level` — is removed, each removal independent of the
others, while every non-confirming entry remains; the RTS signal is
`none` exactly when no entry confirms, and otherwise reports a single
confirming representative.  Symmetrically for the STR list using the
current high and a close below the level. -/
theorem C7_confirmation_sweep (c : Candle) (res sup : Option (Int × ℚ))
    (rts str : List (ℚ × Int)) (tol : ℚ) :
    (∀ e, e ∈ (identify_str_rts_live c res sup rts str tol).potential_rts_levels ↔
      e ∈ rtsBreachUpdate c res rts ∧
        ¬(c.ts > e.2 ∧ |c.low - e.1| / e.1 ≤ tol ∧ c.close > e.1)) ∧
    (∀ e, e ∈ (identify_str_rts_live c res sup rts str tol).potential_str_levels ↔
      e ∈ strBreachUpdate c sup str ∧
        ¬(c.ts > e.2 ∧ |c.high - e.1| / e.1 ≤ tol ∧ c.close < e.1)) ∧
    ((identify_str_rts_live c res sup rts str tol).rts_signal_info = none ↔
      ∀ e ∈ rtsBreachUpdate c res rts,
        ¬(c.ts > e.2 ∧ |c.low - e.1| / e.1 ≤ tol ∧ c.close > e.1)) ∧
    ((identify_str_rts_live c res sup rts str tol).str_signal_info = none ↔
      ∀ e ∈ strBreachUpdate c sup str,
        ¬(c.ts > e.2 ∧ |c.high - e.1| / e.1 ≤ tol ∧ c.close < e.1)) ∧
    (∀ s, (identify_str_rts_live c res sup rts str tol).rts_signal_info = some s →
      ∃ e ∈ rtsBreachUpdate c res rts,
        (c.ts > e.2 ∧ |c.low - e.1| / e.1 ≤ tol ∧ c.close > e.1) ∧
          s = (e.1, "RTS")) ∧
    (∀ s, (identify_str_rts_live c res sup rts str tol).str_signal_info = some s →
      ∃ e ∈ strBreachUpdate c sup str,
        (c.ts > e.2 ∧ |c.high - e.1| / e.1 ≤ tol ∧ c.close < e.1) ∧
          s = (e.1, "STR")) := by
  refine ⟨?_, ?_, ?_, ?_, ?_, ?_⟩
  · intro e
    rw [identify_str_rts_live_rts_list, List.mem_filter, Bool.not_eq_true',
      Bool.eq_false_iff, Ne, rtsConfirms_iff]
  · intro e
    rw [identify_str_rts_live_str_list, List.mem_filter, Bool.not_eq_true',
      Bool.eq_false_iff, Ne, strConfirms_iff]
  · rw [identify_str_rts_live_rts_signal]
    cases hlast : ((rtsBreachUpdate c res rts).filter (rtsConfirms c tol)).getLast? with
    | none =>
      have hnil := List.getLast?_eq_none_iff.mp hlast
      simp only [hlast, Option.elim]
      constructor
      · intro _ e he hconf
        have : e ∈ (rtsBreachUpdate c res rts).filter (rtsConfirms c tol) :=
          List.mem_filter.mpr ⟨he, (rtsConfirms_iff c tol e).mpr hconf⟩
        rw [hnil] at this
        exact absurd this (List.not_mem_nil e)
      · intro _; trivial
    | some y =>
      have hy : y ∈ (rtsBreachUpdate c res rts).filter (rtsConfirms c tol) :=
        List.mem_of_mem_getLast? hlast
      simp only [hlast, Option.elim]
      constructor
      · intro hc; exact absurd hc (by simp)
      · intro hall
        rcases List.mem_filter.mp hy with ⟨hmem, hconf⟩
        exact absurd ((rtsConfirms_iff c tol y).mp hconf) (hall y hmem)
  · rw [identify_str_rts_live_str_signal]
    cases hlast : ((strBreachUpdate c sup str).filter (strConfirms c tol)).getLast? with
    | none =>
      have hnil := List.getLast?_eq_none_iff.mp hlast
      simp only [hlast, Option.elim]
      constructor
      · intro _ e he hconf
        have : e ∈ (strBreachUpdate c sup str).filter (strConfirms c tol) :=
          List.mem_filter.mpr ⟨he, (strConfirms_iff c tol e).mpr hconf⟩
        rw [hnil] at this
        exact absurd this (List.not_mem_nil e)
      · intro _; trivial
    | some y =>
      have hy : y ∈ (strBreachUpdate c sup str).filter (strConfirms c tol) :=
        List.mem_of_mem_getLast? hlast
      simp only [hlast, Option.elim]
      constructor
      · intro hc; exact absurd hc (by simp)
      · intro hall
        rcases List.mem_filter.mp hy with ⟨hmem, hconf⟩
        exact absurd ((strConfirms_iff c tol y).mp hconf) (hall y hmem)
  · intro s hs
    rw [identify_str_rts_live_rts_signal] at hs
    cases hlast : ((rtsBreachUpdate c res rts).filter (rtsConfirms c tol)).getLast? with
    | none => rw [hlast] at hs; exact absurd hs (by simp)
    | some y =>
      have hy := List.mem_of_mem_getLast? hlast
      rcases List.mem_filter.mp hy with ⟨hmem, hconf⟩
      rw [hlast] at hs
      exact ⟨y, hmem, (rtsConfirms_iff c tol y).mp hconf, by
        simpa [Option.elim] using hs.symm⟩
  · intro s hs
    rw [identify_str_rts_live_str_signal] at hs
    cases hlast : ((strBreachUpdate c sup str).filter (strConfirms c tol)).getLast? with
    | none => rw [hlast] at hs; exact absurd hs (by simp)
    | some y =>
      have hy := List.mem_of_mem_getLast? hlast
      rcases List.mem_filter.mp hy with ⟨hmem, hconf⟩
      rw [hlast] at hs
      exact ⟨y, hmem, (strConfirms_iff c tol y).mp hconf, by
        simpa [Option.elim] using hs.symm⟩

/-- C1 counterexample: with pending list `[(100, 5)]`, last confirmed
resistance `(5, 100)` and a candle at timestamp `10` closing at `101`,
the breach conditions hold and `(100, 10)` — resistance level paired with
the current timestamp — is not in the pending set, yet the call does not
enqueue it: the source's membership test checks `(100, 5)`, the level
paired with the resistance's own timestamp, which is present. -/
theorem C1_counterexample :
    (Candle.close ⟨10, 101, 101, 50, 101, 0⟩ > 100) ∧
    (Candle.ts ⟨10, 101, 101, 50, 101, 0⟩ > 5) ∧
    ((100 : ℚ), (10 : Int)) ∉ [((100 : ℚ), (5 : Int))] ∧
    ((100 : ℚ), (10 : Int)) ∉
      (identify_str_rts_live ⟨10, 101, 101, 50, 101, 0⟩ (some (5, 100)) none
        [((100 : ℚ), (5 : Int))] [] (1/1000)).potential_rts_levels := by
  refine ⟨by norm_num, by norm_num, by simp, ?_⟩
  rw [identify_str_rts_live_rts_list]
  have hb : rtsBreachUpdate ⟨10, 101, 101, 50, 101, 0⟩ (some (5, 100))
      [((100 : ℚ), (5 : Int))] = [((100 : ℚ), (5 : Int))] := by
    simp only [rtsBreachUpdate]
    rw [if_pos (by constructor <;> norm_num), if_neg (by simp)]
  rw [hb]
  intro hmem
  rcases List.mem_filter.mp hmem with ⟨hm, _⟩
  simp at hm

/-- C1 amended: when the current MTF candle's close crosses the last
confirmed resistance upward after that resistance was established, the
pair `(resistanceLevel, currentTimestamp)` is enqueued into the pending
RTS list provided the pair `(resistanceLevel, resistanceTimestamp)` —
the level paired with the resistance's own timestamp, which is what the
source's membership test checks — is not already present; it survives
the same call's confirmation sweep.  Symmetrically for a downward breach
of the last confirmed support into the pending STR list. -/
theorem C1_amended (c : Candle) (res_ts sup_ts : Int) (res_val sup_val : ℚ)
    (res sup : Option (Int × ℚ)) (rts str : List (ℚ × Int)) (tol : ℚ) :
    (c.close > res_val → c.ts > res_ts → (res_val, res_ts) ∉ rts →
      (res_val, c.ts) ∈
        (identify_str_rts_live c (some (res_ts, res_val)) sup rts str
          tol).potential_rts_levels) ∧
    (c.close < sup_val → c.ts > sup_ts → (sup_val, sup_ts) ∉ str →
      (sup_val, c.ts) ∈
        (identify_str_rts_live c res (some (sup_ts, sup_val)) rts str
          tol).potential_str_levels) ∧
    ((res_val, res_ts) ∈ rts →
      rtsBreachUpdate c (some (res_ts, res_val)) rts = rts) ∧
    ((sup_val, sup_ts) ∈ str →
      strBreachUpdate c (some (sup_ts, sup_val)) str = str) := by
  refine ⟨?_, ?_, ?_, ?_⟩
  · intro h1 h2 h3
    rw [identify_str_rts_live_rts_list]
    have hb : rtsBreachUpdate c (some (res_ts, res_val)) rts =
        rts ++ [(res_val, c.ts)] := by
      simp only [rtsBreachUpdate]
      rw [if_pos ⟨h1, h2⟩, if_pos h3]
    rw [hb]
    refine List.mem_filter.mpr
      ⟨List.mem_append_right _ (List.mem_singleton_self _), ?_⟩
    simp [rtsConfirms]
  · intro h1 h2 h3
    rw [identify_str_rts_live_str_list]
    have hb : strBreachUpdate c (some (sup_ts, sup_val)) str =
        str ++ [(sup_val, c.ts)] := by
      simp only [strBreachUpdate]
      rw [if_pos ⟨h1, h2⟩, if_pos h3]
    rw [hb]
    refine List.mem_filter.mpr
      ⟨List.mem_append_right _ (List.mem_singleton_self _), ?_⟩
    simp [strConfirms]
  · intro hmem
    simp only [rtsBreachUpdate]
    by_cases hcond : c.close > res_val ∧ c.ts > res_ts
    · rw [if_pos hcond, if_neg (by simpa using hmem)]
    · rw [if_neg hcond]
  · intro hmem
    simp only [strBreachUpdate]
    by_cases hcond : c.close < sup_val ∧ c.ts > sup_ts
    · rw [if_pos hcond, if_neg (by simpa using hmem)]
    · rw [if_neg hcond]

/-- The RTS breach update keeps the pending list duplicate-free and bounds
every breach timestamp by the candle's, provided all pending breach
timestamps strictly precede the candle's timestamp. -/
theorem rtsBreachUpdate_ok (c : Candle) (res : Option (Int × ℚ))
    (rts : List (ℚ × Int)) (h1 : rts.Nodup) (h3 : ∀ e ∈ rts, e.2 < c.ts) :
    (rtsBreachUpdate c res rts).Nodup ∧
      ∀ e ∈ rtsBreachUpdate c res rts, e.2 ≤ c.ts := by
  cases res with
  | none =>
    exact ⟨h1, fun e he => le_of_lt (h3 e he)⟩
  | some r =>
    simp only [rtsBreachUpdate]
    by_cases hcond : c.close > r.2 ∧ c.ts > r.1
    · rw [if_pos hcond]
      by_cases hmem : (r.2, r.1) ∉ rts
      · rw [if_pos hmem]
        constructor
        · rw [List.nodup_append]
          refine ⟨h1, List.nodup_singleton _, ?_⟩
          intro a ha hb
          rcases List.mem_singleton.mp hb with rfl
          exact lt_irrefl _ (h3 _ ha)
        · intro e he
          rcases List.mem_append.mp he with h | h
          · exact le_of_lt (h3 e h)
          · rcases List.mem_singleton.mp h with rfl
            exact le_refl _
      · rw [if_neg hmem]
        exact ⟨h1, fun e he => le_of_lt (h3 e he)⟩
    · rw [if_neg hcond]
      exact ⟨h1, fun e he => le_of_lt (h3 e he)⟩

/-- The STR breach update keeps the pending list duplicate-free and bounds
every breach timestamp by the candle's, provided all pending breach
timestamps strictly precede the candle's timestamp. -/
theorem strBreachUpdate_ok (c : Candle) (sup : Option (Int × ℚ))
    (str : List (ℚ × Int)) (h1 : str.Nodup) (h3 : ∀ e ∈ str, e.2 < c.ts) :
    (strBreachUpdate c sup str).Nodup ∧
      ∀ e ∈ strBreachUpdate c sup str, e.2 ≤ c.ts := by
  cases sup with
  | none =>
    exact ⟨h1, fun e he => le_of_lt (h3 e he)⟩
  | some r =>
    simp only [strBreachUpdate]
    by_cases hcond : c.close < r.2 ∧ c.ts > r.1
    · rw [if_pos hcond]
      by_cases hmem : (r.2, r.1) ∉ str
      · rw [if_pos hmem]
        constructor
        · rw [List.nodup_append]
          refine ⟨h1, List.nodup_singleton _, ?_⟩
          intro a ha hb
          rcases List.mem_singleton.mp hb with rfl
          exact lt_irrefl _ (h3 _ ha)
        · intro e he
          rcases List.mem_append.mp he with h | h
          · exact le_of_lt (h3 e h)
          · rcases List.mem_singleton.mp h with rfl
            exact le_refl _
      · rw [if_neg hmem]
        exact ⟨h1, fun e he => le_of_lt (h3 e he)⟩
    · rw [if_neg hcond]
      exact ⟨h1, fun e he => le_of_lt (h3 e he)⟩

/-- One call of the retest state machine keeps both pending lists
duplicate-free and bounds every remaining breach timestamp by the
candle's timestamp, provided all incoming breach timestamps strictly
precede the candle's timestamp. -/
theorem retest_step_ok (c : Candle) (res sup : Option (Int × ℚ))
    (rts str : List (ℚ × Int)) (tol : ℚ)
    (h1 : rts.Nodup) (h2 : str.Nodup)
    (h3 : ∀ e ∈ rts, e.2 < c.ts) (h4 : ∀ e ∈ str, e.2 < c.ts) :
    (identify_str_rts_live c res sup rts str tol).potential_rts_levels.Nodup ∧
    (identify_str_rts_live c res sup rts str tol).potential_str_levels.Nodup ∧
    (∀ e ∈ (identify_str_rts_live c res sup rts str tol).potential_rts_levels,
      e.2 ≤ c.ts) ∧
    (∀ e ∈ (identify_str_rts_live c res sup rts str tol).potential_str_levels,
      e.2 ≤ c.ts) := by
  obtain ⟨hr1, hr2⟩ := rtsBreachUpdate_ok c res rts h1 h3
  obtain ⟨hs1, hs2⟩ := strBreachUpdate_ok c sup str h2 h4
  rw [identify_str_rts_live_rts_list, identify_str_rts_live_str_list]
  refine ⟨hr1.filter _, hs1.filter _, ?_, ?_⟩
  · intro e he
    exact hr2 e (List.mem_filter.mp he).1
  · intro e he
    exact hs2 e (List.mem_filter.mp he).1

/-- C6 counterexample: the pending sets `([(100, 50)], [])` are
duplicate-free and a single call (vacuously strictly increasing) at
timestamp `50` with last confirmed resistance `(1, 100)` and close `101`
appends `(100, 50)` a second time: the at-most-once invariant alone is
not preserved by the breach-enqueue transition. -/
theorem C6_counterexample :
    ([((100 : ℚ), (50 : Int))] : List (ℚ × Int)).Nodup ∧
    ([] : List (ℚ × Int)).Nodup ∧
    ¬ (runRetestCalls ([((100 : ℚ), (50 : Int))], [])
        [⟨⟨50, 101, 101, 50, 101, 0⟩, some (1, 100), none, 1/1000⟩]).1.Nodup := by
  refine ⟨List.nodup_singleton _, List.nodup_nil, ?_⟩
  have hrun : (runRetestCalls ([((100 : ℚ), (50 : Int))], [])
      [⟨⟨50, 101, 101, 50, 101, 0⟩, some (1, 100), none, 1/1000⟩]).1 =
      (identify_str_rts_live ⟨50, 101, 101, 50, 101, 0⟩ (some (1, 100)) none
        [((100 : ℚ), (50 : Int))] [] (1/1000)).potential_rts_levels := rfl
  rw [hrun, identify_str_rts_live_rts_list]
  have hb : rtsBreachUpdate ⟨50, 101, 101, 50, 101, 0⟩ (some (1, 100))
      [((100 : ℚ), (50 : Int))] =
      [((100 : ℚ), (50 : Int)), ((100 : ℚ), (50 : Int))] := by
    simp only [rtsBreachUpdate]
    rw [if_pos (by constructor <;> norm_num), if_pos (by simp)]
    rfl
  rw [hb]
  have hfil : (([((100 : ℚ), (50 : Int)), ((100 : ℚ), (50 : Int))]).filter
      (fun e => !(rtsConfirms ⟨50, 101, 101, 50, 101, 0⟩ (1/1000) e))) =
      [((100 : ℚ), (50 : Int)), ((100 : ℚ), (50 : Int))] := by
    apply List.filter_eq_self.mpr
    intro e he
    have he' : e = ((100 : ℚ), (50 : Int)) := by
      simpa [or_self] using he
    subst he'
    simp [rtsConfirms]
  rw [hfil]
  simp

/-- C6 amended: over any sequence of retest-state-machine calls with
strictly increasing candle timestamps, starting from duplicate-free
pending sets whose breach timestamps all precede the first call's candle
timestamp (which holds for every state reachable from the empty initial
sets), each of the two pending sets contains a given
`(price, breachTimestamp)` pair at most once after every call.  The
added precondition on the initial breach timestamps is forced by the
counterexample. -/
theorem C6_amended (s0 : List (ℚ × Int) × List (ℚ × Int))
    (calls : List RetestCall)
    (hchain : (calls.map fun k => k.candle.ts).Chain' (· < ·))
    (h1 : s0.1.Nodup) (h2 : s0.2.Nodup)
    (hb : ∀ k0, calls.head? = some k0 →
      (∀ e ∈ s0.1, e.2 < k0.candle.ts) ∧ (∀ e ∈ s0.2, e.2 < k0.candle.ts)) :
    ∀ n, (runRetestCalls s0 (calls.take n)).1.Nodup ∧
      (runRetestCalls s0 (calls.take n)).2.Nodup := by
  induction calls generalizing s0 with
  | nil =>
    intro n
    simpa [runRetestCalls] using ⟨h1, h2⟩
  | cons k rest ih =>
    intro n
    cases n with
    | zero => exact ⟨h1, h2⟩
    | succ m =>
      rw [List.take_succ_cons]
      obtain ⟨hbr, hbs⟩ := hb k rfl
      obtain ⟨n1, n2, b1, b2⟩ :=
        retest_step_ok k.candle k.res k.sup s0.1 s0.2 k.tol h1 h2 hbr hbs
      have hrun : runRetestCalls s0 (k :: rest.take m) =
          runRetestCalls
            ((identify_str_rts_live k.candle k.res k.sup s0.1 s0.2
                k.tol).potential_rts_levels,
             (identify_str_rts_live k.candle k.res k.sup s0.1 s0.2
                k.tol).potential_str_levels)
            (rest.take m) := rfl
      rw [hrun]
      rw [List.map_cons] at hchain
      obtain ⟨hhd, hchain'⟩ := List.chain'_cons'.mp hchain
      have hhead : ∀ k0, rest.head? = some k0 →
          k.candle.ts < k0.candle.ts := by
        intro k0 hk0
        apply hhd
        rw [List.head?_map, hk0]
        rfl
      exact ih _ hchain' n1 n2
        (fun k0 hk0 =>
          ⟨fun e he => lt_of_le_of_lt (b1 e he) (hhead k0 hk0),
           fun e he => lt_of_le_of_lt (b2 e he) (hhead k0 hk0)⟩) m

/-- C4: on a window of exactly `2w+1` candles with the candidate at the
center index `w`, the swing-high detector returns `(timestamp, high)` of
the candidate iff the candidate's high is an upper bound of the highs of
the entire window (ties included); symmetrically for the swing-low
detector with lower bounds of the lows; and any window shorter than
`2w+1` yields no signal from either detector. -/
theorem C4_swing_window (df : List Candle) (w : Nat) (c : Candle)
    (hlen : df.length = 2 * w + 1) (hc : df[w]? = some c) :
    (find_swing_highs_live df w = some (c.ts, c.high) ↔
      ∀ x ∈ df, x.high ≤ c.high) ∧
    (find_swing_lows_live df w = some (c.ts, c.low) ↔
      ∀ x ∈ df, c.low ≤ x.low) ∧
    (∀ df2 : List Candle, df2.length < 2 * w + 1 →
      find_swing_highs_live df2 w = none ∧ find_swing_lows_live df2 w = none) := by
  have hguard : ¬ df.length < 2 * w + 1 := by omega
  have htake : df.take (2 * w + 1) = df := List.take_of_length_le (by omega)
  have hmem : c ∈ df := List.getElem?_mem hc
  refine ⟨?_, ?_, ?_⟩
  · rw [find_swing_highs_live, if_neg hguard, hc]
    simp only [htake]
    by_cases hcond : (c.high : WithBot ℚ) = (df.map Candle.high).maximum
    · rw [if_pos hcond]
      simp only [true_iff, Option.some.injEq]
      intro x hx
      exact List.le_maximum_of_mem (List.mem_map_of_mem Candle.high hx)
        hcond.symm
    · rw [if_neg hcond]
      constructor
      · intro hcontra
        exact absurd hcontra (by simp)
      · intro hub
        exfalso
        apply hcond
        refine ((List.maximum_eq_coe_iff).mpr
          ⟨List.mem_map_of_mem Candle.high hmem, ?_⟩).symm
        intro a ha
        rcases List.mem_map.mp ha with ⟨x, hx, rfl⟩
        exact hub x hx
  · rw [find_swing_lows_live, if_neg hguard, hc]
    simp only [htake]
    by_cases hcond : (c.low : WithTop ℚ) = (df.map Candle.low).minimum
    · rw [if_pos hcond]
      simp only [true_iff, Option.some.injEq]
      intro x hx
      exact List.minimum_le_of_mem (List.mem_map_of_mem Candle.low hx)
        hcond.symm
    · rw [if_neg hcond]
      constructor
      · intro hcontra
        exact absurd hcontra (by simp)
      · intro hlb
        exfalso
        apply hcond
        refine ((List.minimum_eq_coe_iff).mpr
          ⟨List.mem_map_of_mem Candle.low hmem, ?_⟩).symm
        intro a ha
        rcases List.mem_map.mp ha with ⟨x, hx, rfl⟩
        exact hlb x hx
  · intro df2 hshort
    constructor
    · rw [find_swing_highs_live, if_pos hshort]
    · rw [find_swing_lows_live, if_pos hshort]

/-- C10: on a window longer than `2w+1` candles, both swing detectors
still take the candle at index `w` as the candidate and compare it only
against the first `2w+1` candles: their result coincides with the result
on the truncated window, so candles at positions `2w+1` and beyond are
ignored. -/
theorem C10_long_window (df : List Candle) (w : Nat)
    (hlen : 2 * w + 1 ≤ df.length) :
    find_swing_highs_live df w = find_swing_highs_live (df.take (2 * w + 1)) w ∧
    find_swing_lows_live df w = find_swing_lows_live (df.take (2 * w + 1)) w := by
  have hlen2 : (df.take (2 * w + 1)).length = 2 * w + 1 := by
    rw [List.length_take]
    omega
  have hguard : ¬ df.length < 2 * w + 1 := by omega
  have hguard2 : ¬ (df.take (2 * w + 1)).length < 2 * w + 1 := by omega
  have hget : (df.take (2 * w + 1))[w]? = df[w]? :=
    List.getElem?_take_of_lt (by omega)
  have htt : (df.take (2 * w + 1)).take (2 * w + 1) = df.take (2 * w + 1) :=
    List.take_of_length_le (by omega)
  constructor
  · rw [find_swing_highs_live, find_swing_highs_live, if_neg hguard,
      if_neg hguard2, hget, htt]
  · rw [find_swing_lows_live, find_swing_lows_live, if_neg hguard,
      if_neg hguard2, hget, htt]

/-- C5: with `sh1, sh2` the second-last and last confirmed swing highs
and `sl1, sl2` the second-last and last confirmed swing lows, the
classifier returns `"Bullish"` iff `sh2.price > sh1.price`,
`sl2.price > sl1.price` and `sl2.timestamp > sh2.timestamp`; `"Bearish"`
iff `sl2.price < sl1.price`, `sh2.price < sh1.price` and
`sh2.timestamp > sl2.timestamp`; `"Ranging"` otherwise; and `"Ranging"`
whenever either history has fewer than two entries. -/
theorem C5_market_structure (cc : Candle) (sh sl pre1 pre2 : List (Int × ℚ))
    (sh1 sh2 sl1 sl2 : Int × ℚ)
    (hsh : sh = pre1 ++ [sh1, sh2]) (hsl : sl = pre2 ++ [sl1, sl2]) :
    (determine_market_structure_live cc sh sl = "Bullish" ↔
      sh2.2 > sh1.2 ∧ sl2.2 > sl1.2 ∧ sl2.1 > sh2.1) ∧
    (determine_market_structure_live cc sh sl = "Bearish" ↔
      sl2.2 < sl1.2 ∧ sh2.2 < sh1.2 ∧ sh2.1 > sl2.1) ∧
    (¬(sh2.2 > sh1.2 ∧ sl2.2 > sl1.2 ∧ sl2.1 > sh2.1) →
      ¬(sl2.2 < sl1.2 ∧ sh2.2 < sh1.2 ∧ sh2.1 > sl2.1) →
      determine_market_structure_live cc sh sl = "Ranging") ∧
    (∀ a b : List (Int × ℚ), a.length < 2 ∨ b.length < 2 →
      determine_market_structure_live cc a b = "Ranging") := by
  subst hsh hsl
  have hred : determine_market_structure_live cc (pre1 ++ [sh1, sh2])
      (pre2 ++ [sl1, sl2]) =
      (if sh2.2 > sh1.2 ∧ sl2.2 > sl1.2 ∧ sl2.1 > sh2.1 then "Bullish"
       else if sl2.2 < sl1.2 ∧ sh2.2 < sh1.2 ∧ sh2.1 > sl2.1 then "Bearish"
       else "Ranging") := by
    have hrev1 : (pre1 ++ [sh1, sh2]).reverse = sh2 :: sh1 :: pre1.reverse := by
      simp
    have hrev2 : (pre2 ++ [sl1, sl2]).reverse = sl2 :: sl1 :: pre2.reverse := by
      simp
    rw [determine_market_structure_live, hrev1, hrev2]
  refine ⟨?_, ?_, ?_, ?_⟩
  · rw [hred]
    by_cases hbull : sh2.2 > sh1.2 ∧ sl2.2 > sl1.2 ∧ sl2.1 > sh2.1
    · rw [if_pos hbull]
      simpa using hbull
    · rw [if_neg hbull]
      by_cases hbear : sl2.2 < sl1.2 ∧ sh2.2 < sh1.2 ∧ sh2.1 > sl2.1
      · rw [if_pos hbear]
        constructor
        · intro hcontra
          exact absurd hcontra (by decide)
        · intro hcontra
          exact absurd hcontra hbull
      · rw [if_neg hbear]
        constructor
        · intro hcontra
          exact absurd hcontra (by decide)
        · intro hcontra
          exact absurd hcontra hbull
  · rw [hred]
    by_cases hbull : sh2.2 > sh1.2 ∧ sl2.2 > sl1.2 ∧ sl2.1 > sh2.1
    · rw [if_pos hbull]
      constructor
      · intro hcontra
        exact absurd hcontra (by decide)
      · intro hbear
        exact absurd hbull.1 (not_lt_of_gt hbear.2.1)
    · rw [if_neg hbull]
      by_cases hbear : sl2.2 < sl1.2 ∧ sh2.2 < sh1.2 ∧ sh2.1 > sl2.1
      · rw [if_pos hbear]
        simpa using hbear
      · rw [if_neg hbear]
        constructor
        · intro hcontra
          exact absurd hcontra (by decide)
        · intro hcontra
          exact absurd hcontra hbear
  · intro hnb hnb2
    rw [hred, if_neg hnb, if_neg hnb2]
  · intro a b hab
    rcases hab with h | h
    · match ha : a.reverse with
      | [] => rw [determine_market_structure_live, ha]
      | [x] => rw [determine_market_structure_live, ha]
      | x :: y :: t =>
        exfalso
        have := congrArg List.length ha
        simp at this
        omega
    · match hb : b.reverse with
      | [] =>
        rw [determine_market_structure_live, hb]
        match a.reverse with
        | [] => rfl
        | [x] => rfl
        | x :: y :: t => rfl
      | [x] =>
        rw [determine_market_structure_live, hb]
        match a.reverse with
        | [] => rfl
        | [y] => rfl
        | y :: z :: t => rfl
      | x :: y :: t =>
        exfalso
        have := congrArg List.length hb
        simp at this
        omega

/-- C9: the BOS detector fires `"Bullish BOS"` iff the regime is
`"Bullish"`, a last confirmed swing high exists, the candle's timestamp
is after the swing's, and the close is strictly above the swing price;
symmetrically `"Bearish BOS"` against the last confirmed swing low with
the close strictly below; and it returns no signal when the regime is
`"Ranging"` or the relevant swing is undefined. -/
theorem C9_bos (c : Candle) (ms : String) (sh sl : Option (Int × ℚ)) :
    (identify_bos_live c ms sh sl = some "Bullish BOS" ↔
      ms = "Bullish" ∧ ∃ p, sh = some p ∧ c.ts > p.1 ∧ c.close > p.2) ∧
    (identify_bos_live c ms sh sl = some "Bearish BOS" ↔
      ms = "Bearish" ∧ ∃ p, sl = some p ∧ c.ts > p.1 ∧ c.close < p.2) ∧
    (ms = "Ranging" → identify_bos_live c ms sh sl = none) ∧
    (ms = "Bullish" → sh = none → identify_bos_live c ms sh sl = none) ∧
    (ms = "Bearish" → sl = none → identify_bos_live c ms sh sl = none) := by
  rcases sh with _ | p <;> rcases sl with _ | q <;>
    by_cases h1 : ms = "Bullish" <;> by_cases h2 : ms = "Bearish" <;>
      simp_all [identify_bos_live]

/-- C8: on a triple of candles each satisfying `low ≤ high`, the FVG
detector returns `("BullishFVG", c1.low)` iff `c1.low > c3.high` and
`c3.high < c2.low`, returns `("BearishFVG", c1.high)` iff
`c1.high < c3.low` and `c3.low > c2.high`, the two conditions never hold
together, it returns no signal when neither condition holds, and fewer
than three candles yield no signal. -/
theorem C8_fvg (c1 c2 c3 : Candle)
    (h1 : c1.low ≤ c1.high) (h2 : c2.low ≤ c2.high) (h3 : c3.low ≤ c3.high) :
    (find_fair_value_gaps_live [c1, c2, c3] = some ("BullishFVG", c1.low) ↔
      c1.low > c3.high ∧ c3.high < c2.low) ∧
    (find_fair_value_gaps_live [c1, c2, c3] = some ("BearishFVG", c1.high) ↔
      c1.high < c3.low ∧ c3.low > c2.high) ∧
    ¬((c1.low > c3.high ∧ c3.high < c2.low) ∧
      (c1.high < c3.low ∧ c3.low > c2.high)) ∧
    (¬(c1.low > c3.high ∧ c3.high < c2.low) →
      ¬(c1.high < c3.low ∧ c3.low > c2.high) →
      find_fair_value_gaps_live [c1, c2, c3] = none) ∧
    (∀ l : List Candle, l.length < 3 → find_fair_value_gaps_live l = none) := by
  have hexcl : ¬((c1.low > c3.high ∧ c3.high < c2.low) ∧
      (c1.high < c3.low ∧ c3.low > c2.high)) := by
    rintro ⟨⟨ha, -⟩, ⟨hb, -⟩⟩
    linarith
  refine ⟨?_, ?_, hexcl, ?_, ?_⟩
  · constructor
    · intro hres
      simp only [find_fair_value_gaps_live] at hres
      split_ifs at hres with hb1 hb2
      · exact hb1
      · simp at hres
    · intro hcond
      simp only [find_fair_value_gaps_live]
      rw [if_pos hcond]
  · constructor
    · intro hres
      simp only [find_fair_value_gaps_live] at hres
      split_ifs at hres with hb1 hb2
      · simp at hres
      · exact hb2
    · intro hcond
      have hnb : ¬(c1.low > c3.high ∧ c3.high < c2.low) := fun hb =>
        hexcl ⟨hb, hcond⟩
      simp only [find_fair_value_gaps_live]
      rw [if_neg hnb, if_pos hcond]
  · intro hnb hnb2
    simp only [find_fair_value_gaps_live]
    rw [if_neg hnb, if_neg hnb2]
  · intro l hl
    match l with
    | [] => rfl
    | [a] => rfl
    | [a, b] => rfl
    | a :: b :: d :: t => simp at hl; omega

/-- C3: with no open position the exit evaluator returns no exit; for a
Long position it checks the stop-loss first — if the candle's low
reaches it the trade exits at exactly the stop-loss with result
`"Loss"`, with no condition on the candle's high — and only otherwise
exits at exactly the take-profit with result `"Win"` when the high
reaches it; the Short case is the mirror. -/
theorem C3_exit (c : Candle) (t : OpenTrade) :
    (define_exit_conditions_live c none = (none, none)) ∧
    (t.tradeType = "Long" →
      ((c.low ≤ t.stopLoss →
        define_exit_conditions_live c (some t) =
          (some t.stopLoss, some "Loss")) ∧
       (¬ c.low ≤ t.stopLoss → c.high ≥ t.takeProfit →
        define_exit_conditions_live c (some t) =
          (some t.takeProfit, some "Win")) ∧
       (¬ c.low ≤ t.stopLoss → ¬ c.high ≥ t.takeProfit →
        define_exit_conditions_live c (some t) = (none, none)))) ∧
    (t.tradeType = "Short" →
      ((c.high ≥ t.stopLoss →
        define_exit_conditions_live c (some t) =
          (some t.stopLoss, some "Loss")) ∧
       (¬ c.high ≥ t.stopLoss → c.low ≤ t.takeProfit →
        define_exit_conditions_live c (some t) =
          (some t.takeProfit, some "Win")) ∧
       (¬ c.high ≥ t.stopLoss → ¬ c.low ≤ t.takeProfit →
        define_exit_conditions_live c (some t) = (none, none)))) := by
  refine ⟨rfl, ?_, ?_⟩
  · intro hty
    refine ⟨?_, ?_, ?_⟩
    · intro hsl
      simp [define_exit_conditions_live, hty, hsl]
    · intro hsl htp
      simp [define_exit_conditions_live, hty, hsl, htp]
    · intro hsl htp
      simp [define_exit_conditions_live, hty, hsl, htp]
  · intro hty
    have hne : t.tradeType ≠ "Long" := by
      rw [hty]
      decide
    refine ⟨?_, ?_, ?_⟩
    · intro hsl
      simp [define_exit_conditions_live, hty, hne, hsl]
    · intro hsl htp
      simp [define_exit_conditions_live, hty, hne, hsl, htp]
    · intro hsl htp
      simp [define_exit_conditions_live, hty, hne, hsl, htp]

/-- C2: the entry evaluator returns no signal for a `"Ranging"` regime;
under a `"Bullish"` regime the three long-entry checks are applied in
the fixed priority order demand-zone retest, MTF bullish-FVG retest, MTF
RTS retest, the first condition that holds determining the reason label —
in particular, when the demand-zone retest holds the reason is
`"4h Demand Retest"` regardless of the FVG and RTS conditions — and no
long signal is produced when none of the three holds; the short slot
stays empty throughout the bullish branch. -/
theorem C2_entry_priority (c : Candle) (sz dz : Option ℚ)
    (bf bef rts str : Option (ℚ × String)) (tol : ℚ) :
    (define_entry_conditions_live c "Ranging" sz dz bf bef rts str tol =
      (none, none)) ∧
    (∀ z, dz = some z → c.low ≤ z → c.low ≥ z * (1 - tol) →
      define_entry_conditions_live c "Bullish" sz dz bf bef rts str tol =
        (some ("Long Entry", "4h Demand Retest"), none)) ∧
    ((∀ z, dz = some z → ¬(c.low ≤ z ∧ c.low ≥ z * (1 - tol))) →
      ∀ f, bf = some f → c.low ≤ f.1 → c.low ≥ f.1 * (1 - tol) →
      define_entry_conditions_live c "Bullish" sz dz bf bef rts str tol =
        (some ("Long Entry", "MTF FVG Retest"), none)) ∧
    ((∀ z, dz = some z → ¬(c.low ≤ z ∧ c.low ≥ z * (1 - tol))) →
      (∀ f, bf = some f → ¬(c.low ≤ f.1 ∧ c.low ≥ f.1 * (1 - tol))) →
      ∀ r, rts = some r → c.low ≤ r.1 → c.low ≥ r.1 * (1 - tol) →
      define_entry_conditions_live c "Bullish" sz dz bf bef rts str tol =
        (some ("Long Entry", "MTF RTS Level Retest"), none)) ∧
    ((∀ z, dz = some z → ¬(c.low ≤ z ∧ c.low ≥ z * (1 - tol))) →
      (∀ f, bf = some f → ¬(c.low ≤ f.1 ∧ c.low ≥ f.1 * (1 - tol))) →
      (∀ r, rts = some r → ¬(c.low ≤ r.1 ∧ c.low ≥ r.1 * (1 - tol))) →
      define_entry_conditions_live c "Bullish" sz dz bf bef rts str tol =
        (none, none)) := by
  refine ⟨by simp [define_entry_conditions_live], ?_, ?_, ?_, ?_⟩
  · intro z hz hlo hhi
    subst hz
    simp [define_entry_conditions_live, hlo, hhi]
  · intro hd f hf hlo hhi
    subst hf
    rcases dz with _ | z
    · simp [define_entry_conditions_live, hlo, hhi]
    · have := hd z rfl
      simp [define_entry_conditions_live, hlo, hhi, this]
  · intro hd hf r hr hlo hhi
    subst hr
    rcases dz with _ | z <;> rcases bf with _ | f
    · simp [define_entry_conditions_live, hlo, hhi]
    · have hf' := hf f rfl
      simp [define_entry_conditions_live, hlo, hhi, hf']
    · have hd' := hd z rfl
      simp [define_entry_conditions_live, hlo, hhi, hd']
    · have hd' := hd z rfl
      have hf' := hf f rfl
      simp [define_entry_conditions_live, hlo, hhi, hd', hf']
  · intro hd hf hr
    rcases dz with _ | z <;> rcases bf with _ | f <;> rcases rts with _ | r
    · simp [define_entry_conditions_live]
    · have hr' := hr r rfl
      simp [define_entry_conditions_live, hr']
    · have hf' := hf f rfl
      simp [define_entry_conditions_live, hf']
    · have hf' := hf f rfl
      have hr' := hr r rfl
      simp [define_entry_conditions_live, hf', hr']
    · have hd' := hd z rfl
      simp [define_entry_conditions_live, hd']
    · have hd' := hd z rfl
      have hr' := hr r rfl
      simp [define_entry_conditions_live, hd', hr']
    · have hd' := hd z rfl
      have hf' := hf f rfl
      simp [define_entry_conditions_live, hd', hf']
    · have hd' := hd z rfl
      have hf' := hf f rfl
      have hr' := hr r rfl
      simp [define_entry_conditions_live, hd', hf', hr']

/-- Five-candle demonstration window: highs `10, 12, 15, 11, 9` with the
candidate at center index 2 (the example window of the specification). -/
def demoW : List Candle :=
  [⟨0, 10, 10, 1, 10, 0⟩, ⟨1, 12, 12, 2, 12, 0⟩, ⟨2, 15, 15, 3, 15, 0⟩,
   ⟨3, 11, 11, 4, 11, 0⟩, ⟨4, 9, 9, 5, 9, 0⟩]

/-- Six-candle window: highs `1, 5, 2, 9, 9, 9` — the strictly higher
highs sit beyond position `2w+1 = 3` for `w = 1`. -/
def demoLong : List Candle :=
  [⟨0, 1, 1, 1, 1, 0⟩, ⟨1, 5, 5, 2, 5, 0⟩, ⟨2, 2, 2, 3, 2, 0⟩,
   ⟨3, 9, 9, 0, 9, 0⟩, ⟨4, 9, 9, 0, 9, 0⟩, ⟨5, 9, 9, 0, 9, 0⟩]

theorem C4_witness : find_swing_highs_live demoW 2 = some (2, 15) := by
  rw [(C4_swing_window demoW 2 ⟨2, 15, 15, 3, 15, 0⟩ rfl rfl).1]
  intro x hx
  simp only [demoW, List.mem_cons, List.not_mem_nil, or_false] at hx
  rcases hx with rfl | rfl | rfl | rfl | rfl <;> norm_num

theorem C10_witness :
    find_swing_highs_live demoLong 1 =
      find_swing_highs_live (demoLong.take 3) 1 ∧
    find_swing_lows_live demoLong 1 =
      find_swing_lows_live (demoLong.take 3) 1 :=
  C10_long_window demoLong 1 (by simp [demoLong])

theorem C5_witness :
    determine_market_structure_live ⟨0, 0, 0, 0, 0, 0⟩
      [((1 : Int), (100 : ℚ)), (2, 110)] [((3 : Int), (90 : ℚ)), (4, 95)] =
      "Bullish" := by
  exact (C5_market_structure ⟨0, 0, 0, 0, 0, 0⟩ _ _ [] [] (1, 100) (2, 110)
    (3, 90) (4, 95) rfl rfl).1.mpr ⟨by norm_num, by norm_num, by norm_num⟩

theorem C9_witness :
    identify_bos_live ⟨10, 0, 0, 0, 105, 0⟩ "Bullish" (some (5, 100)) none =
      some "Bullish BOS" := by
  rw [(C9_bos ⟨10, 0, 0, 0, 105, 0⟩ "Bullish" (some (5, 100)) none).1]
  exact ⟨rfl, (5, 100), rfl, by norm_num, by norm_num⟩

theorem C8_witness :
    find_fair_value_gaps_live
      [⟨0, 0, 110, 105, 0, 0⟩, ⟨1, 0, 104, 101, 0, 0⟩, ⟨2, 0, 100, 95, 0, 0⟩] =
      some ("BullishFVG", 105) := by
  rw [(C8_fvg ⟨0, 0, 110, 105, 0, 0⟩ ⟨1, 0, 104, 101, 0, 0⟩
    ⟨2, 0, 100, 95, 0, 0⟩ (by norm_num) (by norm_num) (by norm_num)).1]
  exact ⟨by norm_num, by norm_num⟩

theorem C3_witness :
    define_exit_conditions_live ⟨0, 0, 112, 94, 0, 0⟩
      (some ⟨100, "Long", 95, 110⟩) = (some 95, some "Loss") :=
  ((C3_exit ⟨0, 0, 112, 94, 0, 0⟩ ⟨100, "Long", 95, 110⟩).2.1 rfl).1
    (by norm_num)

theorem C2_witness :
    define_entry_conditions_live ⟨0, 0, 0, 100, 0, 0⟩ "Bullish" none
      (some 100) (some (100, "BullishFVG")) none none none (1/1000) =
      (some ("Long Entry", "4h Demand Retest"), none) :=
  (C2_entry_priority ⟨0, 0, 0, 100, 0, 0⟩ none (some 100)
    (some (100, "BullishFVG")) none none none (1/1000)).2.1 100 rfl
    (by norm_num) (by norm_num)

theorem C7_witness :
    ((100 : ℚ), (5 : Int)) ∈
      (identify_str_rts_live ⟨10, 0, 101, 100, 101, 0⟩ none none
        [((100 : ℚ), (5 : Int))] [] (1/1000)).potential_rts_levels ↔
      ((100 : ℚ), (5 : Int)) ∈
        rtsBreachUpdate ⟨10, 0, 101, 100, 101, 0⟩ none
          [((100 : ℚ), (5 : Int))] ∧
      ¬((Candle.ts ⟨10, 0, 101, 100, 101, 0⟩ > 5) ∧
        |Candle.low ⟨10, 0, 101, 100, 101, 0⟩ - 100| / 100 ≤ 1/1000 ∧
        Candle.close ⟨10, 0, 101, 100, 101, 0⟩ > 100) :=
  (C7_confirmation_sweep ⟨10, 0, 101, 100, 101, 0⟩ none none
    [((100 : ℚ), (5 : Int))] [] (1/1000)).1 ((100 : ℚ), (5 : Int))

theorem C1_amended_witness :
    ((100 : ℚ), (10 : Int)) ∈
      (identify_str_rts_live ⟨10, 101, 101, 50, 101, 0⟩ (some (5, 100)) none
        [] [] (1/1000)).potential_rts_levels :=
  (C1_amended ⟨10, 101, 101, 50, 101, 0⟩ 5 0 100 1 none none [] []
    (1/1000)).1 (by norm_num) (by norm_num) (by simp)

theorem C6_amended_witness :
    (runRetestCalls ([((100 : ℚ), (0 : Int))], [])
      ([⟨⟨50, 101, 101, 50, 101, 0⟩, some (1, 100), none, 1/1000⟩].take 1)).1.Nodup ∧
    (runRetestCalls ([((100 : ℚ), (0 : Int))], [])
      ([⟨⟨50, 101, 101, 50, 101, 0⟩, some (1, 100), none, 1/1000⟩].take 1)).2.Nodup :=
  C6_amended ([((100 : ℚ), (0 : Int))], [])
    [⟨⟨50, 101, 101, 50, 101, 0⟩, some (1, 100), none, 1/1000⟩]
    (by simp) (List.nodup_singleton _) List.nodup_nil
    (fun k0 hk0 => by
      cases Option.some.inj hk0
      refine ⟨?_, ?_⟩
      · intro e he
        have he' : e = ((100 : ℚ), (0 : Int)) := by simpa using he
        subst he'
        norm_num
      · intro e he
        simp at he) 1
